import Mathlib

/-! Camera calibration pipeline of `CameraCalibration.cpp`, and the argument and
timing code of the video programs.

Shallow embedding of the functions of
`src/opencv-cpp/cameracalibration/src/CameraCalibration.cpp`, of the argument test of
`captureui/src/CaptureUI.cpp` and of the frames-per-second figure of `Canny.cpp`,
`Writer.cpp` and `PeopleDetect.cpp`.

Conventions of the embedding:

* `std::vector<T>` is `List T`; an unchecked write `v[i] = x` is `List.set`.
* `int` is `Int`; where a result can leave the range of `int` the range is tested and
  the overflow, undefined in C++, is the fault `undefined`.
* `float` and `double` values are elements of a scalar type `α` with exact
  arithmetic; the conversion to `float` at `Point3f(...)` rounds (`floatOfInt`).
* `std::string` is `List Char`; `size_t` arithmetic is taken modulo `2^64`.
* Functions of OpenCV and `glob` are not part of the repository: they are fields
  of the record `OpenCV`, taken as total functions. `strtol`, `atoi` and `getline`
  are defined after the C and C++ standards.
* A thrown exception and undefined behaviour end a function with a `Fault`.
* Console output is not modelled; `calibrate` keeps the values it prints.
-/

namespace CameraCalibration

/-- The type `cv::Size`: width first, then height. -/
structure Size where
  width : Int
  height : Int
deriving DecidableEq, Repr

/-- The type `cv::Point2f`. -/
structure Point2f (α : Type) where
  x : α
  y : α
deriving DecidableEq, Repr

/-- The type `cv::Point3f`. -/
structure Point3f (α : Type) where
  x : α
  y : α
  z : α
deriving DecidableEq, Repr

/-- The type `cv::Mat`: a `rows x cols` grid with its elements in row order. -/
structure Mat (α : Type) where
  rows : Nat
  cols : Nat
  data : List α
deriving DecidableEq, Repr

/-- The default-constructed `Mat()`, which holds nothing. -/
def Mat.new {α : Type} : Mat α := ⟨0, 0, []⟩

/-- The method `Mat::size()`: width is the column count, height the row count. -/
def Mat.size {α : Type} (m : Mat α) : Size := ⟨m.cols, m.rows⟩

/-- The method `Mat::empty()`: no data or no element. -/
def Mat.empty {α : Type} (m : Mat α) : Bool := m.data.isEmpty || m.rows * m.cols == 0

/-- The ways in which a function of the program ends without a result: an exception
of the standard library, an exception of OpenCV, or undefined behaviour. -/
inductive Fault where
  | length_error
  | cv_error
  | undefined
deriving DecidableEq, Repr

/-- The result of a function that can end with a fault. -/
inductive Outcome (β : Type) where
  | ok (value : β)
  | fault (f : Fault)
deriving DecidableEq, Repr

/-- The result with `f` applied to its value; a fault stays. -/
def Outcome.map {β γ : Type} (f : β → γ) : Outcome β → Outcome γ
  | Outcome.ok value => Outcome.ok (f value)
  | Outcome.fault e => Outcome.fault e

/-- The sequencing of two steps: a fault of the first ends both. -/
def Outcome.bind {β γ : Type} (r : Outcome β) (f : β → Outcome γ) : Outcome γ :=
  match r with
  | Outcome.ok value => f value
  | Outcome.fault e => Outcome.fault e

/-- The constant `INT_MAX` of a 32-bit `int`. -/
def INT_MAX : Int := 2 ^ 31 - 1

/-- The constant `INT_MIN` of a 32-bit `int`. -/
def INT_MIN : Int := -(2 ^ 31)

/-- The spacing of the `float` values (24-bit significand) around `v`: the least
`u = 2^k` with `v < 2^24 * u`, searched from `u` upwards over `fuel` doublings. -/
def floatUlp : Nat → Nat → Nat → Nat
  | 0, _, u => u
  | fuel + 1, v, u => if v < 2 ^ 24 * u then u else floatUlp fuel v (2 * u)

/-- The conversion of a natural number below `2^128` to `float`: the nearest multiple
of the spacing, a tie going to the even significand. -/
def floatOfNat (v : Nat) : Nat :=
  let u := floatUlp 104 v 1
  let q := v / u
  let r := v % u
  if 2 * r < u then q * u
  else if u < 2 * r then (q + 1) * u
  else if q % 2 = 0 then q * u else (q + 1) * u

/-- The conversion of an integer to `float`, symmetric in the sign. -/
def floatOfInt (z : Int) : Int :=
  if z < 0 then -(floatOfNat z.natAbs : Int) else (floatOfNat z.natAbs : Int)

/-- The flag `cv::IMREAD_UNCHANGED`. -/
def IMREAD_UNCHANGED : Int := -1

/-- The flag `cv::IMREAD_GRAYSCALE`. -/
def IMREAD_GRAYSCALE : Int := 0

/-- The code `cv::COLOR_GRAY2BGR`. -/
def COLOR_GRAY2BGR : Int := 8

/-- What `calibrateCamera` hands back: its return value and its four output arguments. -/
structure CalibrateCameraResult (α : Type) where
  rms : α
  camera_matrix : Mat α
  dist_coeffs : Mat α
  rvecs : List (Mat α)
  tvecs : List (Mat α)
deriving DecidableEq, Repr

/-- The functions of OpenCV and of the C library that the program calls. They are not
part of the repository and are taken as given total functions. `cornerSubPix` is the
call with the file's constant `CRITERIA`; `glob` is `glob(3)` with `GLOB_TILDE`,
giving `gl_pathv[0 .. gl_pathc)`. -/
structure OpenCV (α : Type) where
  glob : List Char → List (List Char)
  imread : List Char → Int → Mat α
  findChessboardCorners : Mat α → Size → Bool × List (Point2f α)
  cornerSubPix : Mat α → List (Point2f α) → Size → Size → List (Point2f α)
  cvtColor : Mat α → Int → Mat α
  drawChessboardCorners : Mat α → Size → List (Point2f α) → Bool → Mat α
  calibrateCamera : List (List (Point3f α)) → List (List (Point2f α)) → Size →
    CalibrateCameraResult α
  getOptimalNewCameraMatrix : Mat α → Mat α → Size → Int → Mat α
  undistort : Mat α → Mat α → Mat α → Mat α → Mat α
  projectPoints : List (Point3f α) → Mat α → Mat α → Mat α → Mat α → List (Point2f α)

/-- The observable calls of the two batch loops, in program order. -/
inductive Event (α : Type) where
  | imread (file : List Char) (flags : Int)
  | undistort (image : Mat α)
  | imwrite (file : List Char) (img : Mat α)
deriving DecidableEq, Repr

/-- The loop `for (size_t k = 0; k != n; ++k) body`, threading the state `s`. -/
def forLoop {σ : Type} (n : Nat) (body : Nat → σ → σ) (s : σ) : σ :=
  (List.range n).foldl (fun st k => body k st) s

/-- The loop `for (int k = 0; k < n; ++k) body`, threading the state `s`. -/
def forInt {σ : Type} (n : Int) (body : Int → σ → σ) (s : σ) : σ :=
  forLoop n.toNat (fun k st => body (k : Int) st) s

/-- The function `globVector` (lines 30-39): copies the `gl_pathc` paths into a vector. -/
def globVector {α : Type} (cv : OpenCV α) (pattern : List Char) : List (List Char) :=
  let gl_pathv := cv.glob pattern
  forLoop gl_pathv.length (fun i files => files ++ [gl_pathv.getD i []]) []

/-- The function `getCorners` (lines 56-63): the vector that `findChessboardCorners`
filled is refined when the search reports success and is returned in either case. -/
def getCorners {α : Type} (cv : OpenCV α) (gray : Mat α) (pattern_size win_size zone_size : Size) :
    List (Point2f α) :=
  let r := cv.findChessboardCorners gray pattern_size
  let corners := r.2
  if r.1 then cv.cornerSubPix gray corners win_size zone_size else corners

/-- The inner loop of `getCorner3f`:
`for (int j = 0; j < width; ++j, cnt++) corners3f[cnt] = Point3f(j * squareSize, i * squareSize, 0.0)`.
The products are exact in `double` (below `2^53`) and are rounded to the `float`
fields of the point. -/
def getCorner3fRow {α : Type} [Ring α] (squareSize : Int) (width : Int) (i : Int)
    (st : List (Point3f α) × Int) : List (Point3f α) × Int :=
  forInt width
    (fun j s => (s.1.set s.2.toNat
      ⟨((floatOfInt (j * squareSize) : Int) : α), ((floatOfInt (i * squareSize) : Int) : α), 0⟩,
      s.2 + 1)) st

/-- The function `getCorner3f` (lines 69-79). The product at line 70 is an `int`
product, undefined outside the range of `int`; a negative product, converted to the
size type of the vector, exceeds `max_size()` and the constructor throws
`std::length_error`. -/
def getCorner3f {α : Type} [Ring α] (pattern_size : Size) : Outcome (List (Point3f α)) :=
  let n : Int := pattern_size.height * pattern_size.width
  if n < INT_MIN ∨ INT_MAX < n then Outcome.fault Fault.undefined
  else if n < 0 then Outcome.fault Fault.length_error
  else
    let corners3f : List (Point3f α) := List.replicate n.toNat ⟨0, 0, 0⟩
    let squareSize : Int := 50
    let cnt : Int := 0
    Outcome.ok
      (forInt pattern_size.height (getCorner3fRow squareSize pattern_size.width)
        (corners3f, cnt)).1

/-- The squared Euclidean distance of two pixel positions. -/
def sqDist {α : Type} [Field α] (p q : Point2f α) : α :=
  (p.x - q.x) * (p.x - q.x) + (p.y - q.y) * (p.y - q.y)

/-- The library call `norm(a, b, NORM_L2)` on two point vectors: the square root of the
sum of the squared coordinate differences. `sqrt` is the square root of the scalars. -/
def normL2 {α : Type} [Field α] (sqrt : α → α) (a b : List (Point2f α)) : α :=
  sqrt (List.zipWith sqDist a b).sum

/-- The body of the loop of `reprojectionError` (lines 112-117) for view `i`;
`projectPoints` is the library function, returning its output vector. -/
def reprojectionErrorStep {α : Type} [Field α] (sqrt : α → α)
    (projectPoints : List (Point3f α) → Mat α → Mat α → Mat α → Mat α → List (Point2f α))
    (object_points : List (List (Point3f α))) (rvecs tvecs : List (Mat α))
    (camera_matrix dist_coeffs : Mat α) (image_points : List (List (Point2f α)))
    (i : Nat) (st : α × α) : α × α :=
  let corners_projected := projectPoints (object_points.getD i []) (rvecs.getD i Mat.new)
    (tvecs.getD i Mat.new) camera_matrix dist_coeffs
  let error := normL2 sqrt (image_points.getD i []) corners_projected
  let n : Int := (object_points.getD i []).length
  (st.1 + error * error, st.2 + (n : α))

/-- The function `reprojectionError` (lines 105-120); the state of the loop is the pair
`(total_error, total_points)`. -/
def reprojectionError {α : Type} [Field α] (sqrt : α → α)
    (projectPoints : List (Point3f α) → Mat α → Mat α → Mat α → Mat α → List (Point2f α))
    (object_points : List (List (Point3f α))) (rvecs tvecs : List (Mat α))
    (camera_matrix dist_coeffs : Mat α) (image_points : List (List (Point2f α))) : α :=
  let st := forLoop object_points.length
    (reprojectionErrorStep sqrt projectPoints object_points rvecs tvecs camera_matrix
      dist_coeffs image_points) (0, 0)
  sqrt (st.1 / st.2)

/-- The function `undistort` (lines 169-175). -/
def undistort {α : Type} (cv : OpenCV α) (image camera_matrix dist_coeffs : Mat α) : Mat α :=
  let new_camera_mtx := cv.getOptimalNewCameraMatrix camera_matrix dist_coeffs image.size 0
  cv.undistort image camera_matrix dist_coeffs new_camera_mtx

/-- The constant `std::string::npos` of a 64-bit `size_t`. -/
def npos : Nat := 2 ^ 64 - 1

/-- The index of the last occurrence of `c` in `s`, if there is one. -/
def rfind : List Char → Char → Option Nat
  | [], _ => none
  | x :: xs, c =>
    match rfind xs c with
    | some i => some (i + 1)
    | none => if x = c then some 0 else none

/-- The method `std::string::find_last_of` with a one-character set: `npos` when absent. -/
def find_last_of (s : List Char) (c : Char) : Nat := (rfind s c).getD npos

/-- The method `std::string::substr(pos, n)`; it throws when `pos > size()`, which no
call site of the program reaches (`pos` is `0` or an index of the string plus one). -/
def substr (s : List Char) (pos n : Nat) : List Char := (s.drop pos).take n

/-- The lines 196-197 and 236-237: "Get just file name from path". -/
def justFileName (file : List Char) : List Char :=
  substr file ((find_last_of file '/' + 1) % 2 ^ 64) file.length

/-- The lines 199-201 and 239-241: "File name to write to", with the given suffix. -/
def writeFileName (out_dir file suffix : List Char) : List Char :=
  let just_file_name := justFileName file
  out_dir ++ substr just_file_name 0 (find_last_of just_file_name '.') ++ suffix

/-- The body of the loop of `undistortAll` (lines 192-202) for file `i`. -/
def undistortAllStep {α : Type} (cv : OpenCV α) (out_dir : List Char)
    (camera_matrix dist_coeffs : Mat α) (files : List (List Char)) (i : Nat)
    (events : List (Event α)) : List (Event α) :=
  let file := files.getD i []
  let mat := cv.imread file IMREAD_UNCHANGED
  let undistort_img := undistort cv mat camera_matrix dist_coeffs
  let write_file_name := writeFileName out_dir file "-cpp-undistort.bmp".toList
  events ++ [Event.imread file IMREAD_UNCHANGED, Event.undistort mat,
    Event.imwrite write_file_name undistort_img]

/-- The function `undistortAll` (lines 187-204), as the sequence of its calls. -/
def undistortAll {α : Type} (cv : OpenCV α) (in_mask out_dir : List Char)
    (camera_matrix dist_coeffs : Mat α) : List (Event α) :=
  let files := globVector cv in_mask
  forLoop files.length (undistortAllStep cv out_dir camera_matrix dist_coeffs files) []

/-- The local variables of `getPoints` that its loop updates. -/
structure GetPointsState (α : Type) where
  object_points : List (List (Point3f α))
  image_points : List (List (Point2f α))
  images : List (Mat α)
  passed : Int
  events : List (Event α)
deriving DecidableEq, Repr

/-- The body of the loop of `getPoints` (lines 224-249) for file `i`. -/
def getPointsStep {α : Type} (cv : OpenCV α) (out_dir : List Char) (pattern_size : Size)
    (corners3f : List (Point3f α)) (files : List (List Char)) (i : Nat)
    (st : GetPointsState α) : GetPointsState α :=
  let file := files.getD i []
  let mat := cv.imread file IMREAD_GRAYSCALE
  let win_size : Size := ⟨5, 5⟩
  let zone_size : Size := ⟨-1, -1⟩
  let corners := getCorners cv mat pattern_size win_size zone_size
  if !corners.isEmpty then
    let vis := cv.cvtColor mat COLOR_GRAY2BGR
    let vis := cv.drawChessboardCorners vis pattern_size corners true
    let write_file_name := writeFileName out_dir file "-cpp.bmp".toList
    { object_points := st.object_points.set i corners3f
      image_points := st.image_points.set i corners
      images := st.images.set i mat
      passed := st.passed + 1
      events := st.events ++ [Event.imread file IMREAD_GRAYSCALE,
        Event.imwrite write_file_name vis] }
  else
    { st with events := st.events ++ [Event.imread file IMREAD_GRAYSCALE] }

/-- The lines 216-250 of `getPoints`: `getCorner3f`, the three vectors sized by the file
count and the loop over the files; the result is the state in which `calibrate` is
called. An exception of `getCorner3f` ends the function. -/
def getPointsLoop {α : Type} [Ring α] (cv : OpenCV α) (in_mask out_dir : List Char)
    (pattern_size : Size) : Outcome (GetPointsState α) :=
  (getCorner3f pattern_size).bind (fun (corners3f : List (Point3f α)) =>
    let files := globVector cv in_mask
    let init : GetPointsState α :=
      { object_points := List.replicate files.length []
        image_points := List.replicate files.length []
        images := List.replicate files.length Mat.new
        passed := 0
        events := [] }
    Outcome.ok (forLoop files.length (getPointsStep cv out_dir pattern_size corners3f files) init))

/-- A document of `cv::FileStorage`: its named fields, in the order written. -/
abbrev Document (α : Type) := List (List Char × Mat α)

/-- The files that `cv::FileStorage` can open, by name. -/
abbrev Files (α : Type) := List Char → Option (Document α)

/-- The function `saveMat` (lines 261-265): the file is opened in `WRITE` mode, which
starts a new document, and the matrix is written under the field `mat`. `fmt x` is
the number that is read back from the text written for `x`. -/
def saveMat {α : Type} (fmt : α → α) (fs : Files α) (mat : Mat α) (file_name : List Char) :
    Files α :=
  fun f => if f = file_name then some [("mat".toList, { mat with data := mat.data.map fmt })]
    else fs f

/-- The function `loadMat` (lines 271-277): the field `mat` of the document is read into
a fresh `Mat`, which stays empty when the file or the field is missing. -/
def loadMat {α : Type} (fs : Files α) (file_name : List Char) : Mat α :=
  match fs file_name with
  | none => Mat.new
  | some doc =>
    match doc.lookup "mat".toList with
    | none => Mat.new
    | some mat => mat


/-- The file name and image of an `imwrite` call, nothing for the other calls. -/
def Event.written {α : Type} : Event α → Option (List Char × Mat α)
  | Event.imwrite file img => some (file, img)
  | _ => none

/-- The three calls that `undistortAll` makes for one file. -/
def undistortCalls {α : Type} (cv : OpenCV α) (out_dir : List Char)
    (camera_matrix dist_coeffs : Mat α) (file : List Char) : List (Event α) :=
  [Event.imread file IMREAD_UNCHANGED,
   Event.undistort (cv.imread file IMREAD_UNCHANGED),
   Event.imwrite (writeFileName out_dir file "-cpp-undistort.bmp".toList)
     (undistort cv (cv.imread file IMREAD_UNCHANGED) camera_matrix dist_coeffs)]

/-- A sample environment over integer scalars. The directory `in/` holds four files:
`a.jpg` shows no chessboard, `b.jpg` shows a full 2 x 2 grid, `c.jpg` shows a board of
which the search finds one corner only, and `d.jpg` is not an image. The calibration
reports the number of views it was given in the camera matrix. -/
def sample : OpenCV Int where
  glob := fun pattern =>
    if pattern = "in/*.jpg".toList then ["in/a.jpg".toList, "in/b.jpg".toList]
    else if pattern = "in/a*".toList then ["in/a.jpg".toList]
    else if pattern = "in/c*".toList then ["in/c.jpg".toList]
    else if pattern = "in/d*".toList then ["in/d.jpg".toList]
    else []
  imread := fun file _ =>
    if file = "in/a.jpg".toList then ⟨1, 1, [1]⟩
    else if file = "in/b.jpg".toList then ⟨1, 1, [2]⟩
    else if file = "in/c.jpg".toList then ⟨1, 1, [3]⟩
    else Mat.new
  findChessboardCorners := fun image _ =>
    if image.data = [2] then (true, [⟨0, 0⟩, ⟨1, 0⟩, ⟨0, 1⟩, ⟨1, 1⟩])
    else if image.data = [3] then (false, [⟨7, 7⟩])
    else (false, [])
  cornerSubPix := fun _ corners _ _ => corners
  cvtColor := fun image _ => image
  drawChessboardCorners := fun image _ _ _ => image
  calibrateCamera := fun object_points _ _ =>
    ⟨0, ⟨3, 3, List.replicate 9 (object_points.length : Int)⟩, ⟨8, 1, List.replicate 8 0⟩,
      object_points.map (fun _ => Mat.new), object_points.map (fun _ => Mat.new)⟩
  getOptimalNewCameraMatrix := fun camera_matrix _ _ _ => camera_matrix
  undistort := fun image _ _ _ => image
  projectPoints := fun object_points _ _ _ _ => object_points.map (fun p => ⟨p.x, p.y⟩)

/-- A sample store with one document, which holds a 3 x 4 matrix under `mat`. -/
def sampleFiles : Files Int :=
  fun f => if f = "camera-matrix.xml".toList
    then some [("mat".toList, ⟨3, 4, [1, 0, 0, 0, 0, 1, 0, 0, 0, 0, 1, 0]⟩)]
    else none

end CameraCalibration

/-! The functions of the C library that the argument parsers call, after the C standard. -/

namespace Libc

/-- The function `isspace` in the C locale. -/
def isspace (c : Char) : Bool :=
  c == ' ' || c == '\t' || c == '\n' || c == '\x0b' || c == '\x0c' || c == '\r'

/-- The value of a run of decimal digits, the most significant first. -/
def digitsValue (ds : List Char) : Nat :=
  ds.foldl (fun acc c => acc * 10 + (c.toNat - '0'.toNat)) 0

/-- The constant `LONG_MAX` of a 64-bit `long`. -/
def LONG_MAX : Int := 2 ^ 63 - 1

/-- The constant `LONG_MIN` of a 64-bit `long`. -/
def LONG_MIN : Int := -(2 ^ 63)

/-- The call `strtol(nptr, &end, 10)`: white space is skipped, then an optional sign and
the longest run of digits are converted. The result is the value, clamped to the range
of `long`, and the offset `end - nptr`, which is `0` when there is no digit to convert. -/
def strtol (nptr : List Char) : Int × Nat :=
  let ws := nptr.takeWhile isspace
  let t := nptr.dropWhile isspace
  let neg := t.head? == some '-'
  let signed := neg || t.head? == some '+'
  let u := if signed then t.tail else t
  let ds := u.takeWhile Char.isDigit
  if ds.isEmpty then (0, 0)
  else
    let v : Int := if neg then -(digitsValue ds : Int) else (digitsValue ds : Int)
    (min (max v LONG_MIN) LONG_MAX, ws.length + (if signed then 1 else 0) + ds.length)

/-- The call `atoi(nptr)`, which is `(int) strtol(nptr, NULL, 10)`; the C standard leaves
it undefined for values outside the range of `int`, which are not narrowed here. -/
def atoi (nptr : List Char) : Int := (strtol nptr).1

/-- The conversion of a `long` to `int` at a call that takes an `int`: the value
modulo `2^32` in the range of `int`. -/
def longToInt (l : Int) : Int := (l + 2 ^ 31) % 2 ^ 32 - 2 ^ 31

/-- The C integer division `a / b`, which truncates; it is undefined for `b = 0`,
rendered as `none`. -/
def cdiv (a b : Int) : Option Int := if b = 0 then none else some (Int.tdiv a b)

/-- The type `struct timeval` that `gettimeofday` fills. -/
structure Timeval where
  tv_sec : Int
  tv_usec : Int
deriving DecidableEq, Repr

/-- The loop `while (cond) body`, run for at most `fuel` iterations. -/
def whileLoop {σ : Type} : Nat → (σ → Bool) → (σ → σ) → σ → σ
  | 0, _, _, s => s
  | fuel + 1, cond, body, s => if cond s then whileLoop fuel cond body (body s) else s

/-- The decimal numeral of a natural number, without leading zeros. -/
def natText (n : Nat) : List Char :=
  if n = 0 then ['0'] else (Nat.digits 10 n).reverse.map Nat.digitChar

/-- The decimal numeral of an integer, with a minus sign when it is negative. -/
def intText (z : Int) : List Char :=
  if z < 0 then '-' :: natText z.natAbs else natText z.natAbs

end Libc

namespace CameraCalibration

/-- A `std::stringstream` that is read only: the characters not yet read and the two
state bits that reading sets. -/
structure StringStream where
  buf : List Char
  eofbit : Bool
  failbit : Bool
deriving DecidableEq, Repr

/-- The method `good()`: no state bit is set. -/
def StringStream.good (ss : StringStream) : Bool := !ss.eofbit && !ss.failbit

/-- The call `getline(ss, substr, delim)` on an empty `substr`: the characters before
the next delimiter are extracted and the delimiter is discarded; reaching the end of the
buffer sets `eofbit`, and extracting nothing at all sets `failbit`. A stream that is
not good extracts nothing and gets `failbit`. -/
def getline (ss : StringStream) (delim : Char) : StringStream × List Char :=
  if ss.good then
    let field := ss.buf.takeWhile (fun c => c != delim)
    match ss.buf.dropWhile (fun c => c != delim) with
    | [] => ({ buf := [], eofbit := true, failbit := field.isEmpty }, field)
    | _ :: rest => ({ buf := rest, eofbit := false, failbit := false }, field)
  else ({ ss with failbit := true }, [])

/-- The local variables of `main` that the loop of lines 315-319 updates; `writes` lists
the indices at which `result` is written, in order. -/
structure ParseState where
  ss : StringStream
  result : List Int
  i : Int
  writes : List Int
deriving DecidableEq, Repr

/-- The body of the loop (lines 316-318):
`string substr; getline(ss, substr, ','); result[i++] = atoi(substr.c_str());`. -/
def parseStep (st : ParseState) : ParseState :=
  let r := getline st.ss ','
  { ss := r.1
    result := st.result.set st.i.toNat (Libc.atoi r.2)
    i := st.i + 1
    writes := st.writes ++ [st.i] }

/-- The lines 311-319 of `main`: `stringstream ss(argv[3]); vector<int> result(2);
int i = 0; while (ss.good()) ...`. Every iteration but the last takes at least one
character, so `length + 1` iterations are enough. -/
def parsePattern (arg : List Char) : ParseState :=
  Libc.whileLoop (arg.length + 1) (fun st => st.ss.good) parseStep
    { ss := { buf := arg, eofbit := false, failbit := false }
      result := [0, 0]
      i := 0
      writes := [] }

/-- The argument parsing of `main` (lines 308-325): the file mask, the output directory
and the pattern size that are passed on; `argv` includes the program name. -/
def mainArgs (argv : List (List Char)) : List Char × List Char × Size :=
  if argv.length = 4 then
    let result := (parsePattern (argv.getD 3 [])).result
    (argv.getD 1 [], argv.getD 2 [], ⟨result.getD 0 0, result.getD 1 0⟩)
  else
    ("../../resources/2015*.jpg".toList, "../../output/".toList, ⟨7, 5⟩)

end CameraCalibration

namespace CaptureUI

/-- The two overloads of `VideoCapture::open` that `main` calls. -/
inductive OpenCall where
  | index (device : Int)
  | url (filename : List Char)
deriving DecidableEq, Repr

/-- The lines 30-47 of `main` in `CaptureUI.cpp`: which `capture.open` is called;
`argv` includes the program name. The test `end != argv[1] || *end == 0` reads: the
offset of `end` is not zero, or nothing follows `end`. The call `capture.open(l)`
takes an `int`. -/
def mainOpen (argv : List (List Char)) : OpenCall :=
  if argv.length = 2 then
    let arg := argv.getD 1 []
    let r := Libc.strtol arg
    let l := r.1
    if r.2 != 0 || (arg.drop r.2).isEmpty then OpenCall.index (Libc.longToInt l)
    else OpenCall.url arg
  else OpenCall.index (-1)

end CaptureUI

namespace Canny

/-- The figure printed after `"FPS "` at line 82 of `Canny.cpp`, evaluated when the
capture opened: `frames / (end_time.tv_sec - start_time.tv_sec)`. -/
def fps (frames : Int) (start_time end_time : Libc.Timeval) : Option Int :=
  Libc.cdiv frames (end_time.tv_sec - start_time.tv_sec)

end Canny

namespace Writer

/-- The figure printed after `"FPS "` at line 67 of `Writer.cpp`, evaluated when the
capture opened: `frames / (end_time.tv_sec - start_time.tv_sec)`. -/
def fps (frames : Int) (start_time end_time : Libc.Timeval) : Option Int :=
  Libc.cdiv frames (end_time.tv_sec - start_time.tv_sec)

end Writer

namespace PeopleDetect

/-- The figure printed after `"FPS "` at line 95 of `PeopleDetect.cpp`, evaluated when
the capture opened: `frames / (end_time.tv_sec - start_time.tv_sec)`. -/
def fps (frames : Int) (start_time end_time : Libc.Timeval) : Option Int :=
  Libc.cdiv frames (end_time.tv_sec - start_time.tv_sec)

end PeopleDetect

namespace CameraCalibration

/-! ## Theorems -/

theorem forLoop_zero {σ : Type} (body : Nat → σ → σ) (s : σ) : forLoop 0 body s = s := rfl

theorem forLoop_succ {σ : Type} (n : Nat) (body : Nat → σ → σ) (s : σ) :
    forLoop (n + 1) body s = body n (forLoop n body s) := by
  simp [forLoop, List.range_succ, List.foldl_append]

/-! ### The object points (`getCorner3f`) -/

/-- A counting loop that writes `f j` at index `k + j` for `j < w`. -/
theorem fill_loop {β : Type} (f : Nat → β) (l : List β) (k w : Nat) :
    (forLoop w (fun j (s : List β × Int) => (s.1.set s.2.toNat (f j), s.2 + 1)) (l, (k : Int))).2
        = ((k + w : Nat) : Int)
    ∧ (forLoop w (fun j (s : List β × Int) => (s.1.set s.2.toNat (f j), s.2 + 1)) (l, (k : Int))).1.length
        = l.length
    ∧ (∀ m, m < k → (forLoop w (fun j (s : List β × Int) => (s.1.set s.2.toNat (f j), s.2 + 1))
          (l, (k : Int))).1[m]? = l[m]?)
    ∧ (∀ j, j < w → k + j < l.length →
        (forLoop w (fun j (s : List β × Int) => (s.1.set s.2.toNat (f j), s.2 + 1))
          (l, (k : Int))).1[k + j]? = some (f j)) := by
  induction w with
  | zero => simp [forLoop_zero]
  | succ w ih =>
    obtain ⟨h2, hlen, hlow, hset⟩ := ih
    rw [forLoop_succ]
    refine ⟨?_, ?_, ?_, ?_⟩
    · simp only [h2]; push_cast; ring
    · simp [hlen]
    · intro m hm
      simp only [h2, Int.toNat_ofNat]
      rw [List.getElem?_set_ne (by omega)]
      exact hlow m hm
    · intro j hj hjl
      simp only [h2, Int.toNat_ofNat]
      by_cases hjw : j = w
      · subst hjw
        rw [List.getElem?_set_self (by omega)]
      · rw [List.getElem?_set_ne (by omega)]
        exact hset j (by omega) hjl

/-- One pass of the inner loop of `getCorner3f`, started with `cnt = k`. -/
theorem getCorner3fRow_spec {α : Type} [Ring α] (sq : Int) (C : Nat) (i : Int)
    (l : List (Point3f α)) (k : Nat) :
    (getCorner3fRow sq (C : Int) i (l, (k : Int))).2 = ((k + C : Nat) : Int)
    ∧ (getCorner3fRow sq (C : Int) i (l, (k : Int))).1.length = l.length
    ∧ (∀ m, m < k → (getCorner3fRow sq (C : Int) i (l, (k : Int))).1[m]? = l[m]?)
    ∧ (∀ c, c < C → k + c < l.length →
        (getCorner3fRow sq (C : Int) i (l, (k : Int))).1[k + c]?
          = some ⟨((floatOfInt ((c : Int) * sq) : Int) : α),
              ((floatOfInt (i * sq) : Int) : α), 0⟩) := by
  have h := fill_loop (fun j : Nat => (⟨((floatOfInt ((j : Int) * sq) : Int) : α),
    ((floatOfInt (i * sq) : Int) : α), 0⟩ : Point3f α)) l k C
  simpa [getCorner3fRow, forInt] using h

/-- The outer loop of `getCorner3f` after `i` rows. -/
theorem getCorner3f_rows {α : Type} [Ring α] (sq : Int) (C : Nat) (l0 : List (Point3f α))
    (i : Nat) :
    (forLoop i (fun r st => getCorner3fRow sq (C : Int) (r : Int) st) (l0, (0 : Int))).2
        = ((i * C : Nat) : Int)
    ∧ (forLoop i (fun r st => getCorner3fRow sq (C : Int) (r : Int) st) (l0, (0 : Int))).1.length
        = l0.length
    ∧ (∀ r c, r < i → c < C → r * C + c < l0.length →
        (forLoop i (fun r st => getCorner3fRow sq (C : Int) (r : Int) st) (l0, (0 : Int))).1[r * C + c]?
          = some ⟨((floatOfInt ((c : Int) * sq) : Int) : α),
              ((floatOfInt ((r : Int) * sq) : Int) : α), 0⟩) := by
  induction i with
  | zero => simp [forLoop_zero]
  | succ i ih =>
    obtain ⟨h2, hlen, hpts⟩ := ih
    rw [forLoop_succ]
    generalize forLoop i (fun r st => getCorner3fRow sq (C : Int) (r : Int) st) (l0, (0 : Int)) = st
      at h2 hlen hpts
    obtain ⟨l, cnt⟩ := st
    simp only at h2 hlen hpts
    subst h2
    obtain ⟨g2, glen, glow, gset⟩ := @getCorner3fRow_spec α _ sq C (i : Int) l (i * C)
    refine ⟨?_, ?_, ?_⟩
    · rw [g2]; congr 1; ring
    · rw [glen, hlen]
    · intro r c hr hc hlt
      by_cases hri : r = i
      · subst hri
        exact gset c hc (by omega)
      · have hr2 : r < i := by omega
        have hlt2 : r * C + c < i * C := by
          calc r * C + c < r * C + C := by omega
            _ = (r + 1) * C := by ring
            _ ≤ i * C := Nat.mul_le_mul_right C (by omega)
        rw [glow _ hlt2]
        exact hpts r c hr2 hc hlt

/-- The points of `getCorner3f` for a point count in the range of `int`: row-major,
with the coordinates rounded to `float`. -/
theorem getCorner3f_spec {α : Type} [Ring α] (rows cols : Nat) (hn : rows * cols < 2 ^ 31) :
    ∃ pts : List (Point3f α),
      getCorner3f ⟨(cols : Int), (rows : Int)⟩ = Outcome.ok pts
      ∧ pts.length = rows * cols
      ∧ ∀ r c, r < rows → c < cols →
          pts[r * cols + c]? = some ⟨((floatOfInt ((c : Int) * 50) : Int) : α),
            ((floatOfInt ((r : Int) * 50) : Int) : α), 0⟩ := by
  have hL : ((rows : Int) * (cols : Int)).toNat = rows * cols := by
    rw [← Nat.cast_mul, Int.toNat_ofNat]
  have hn2 : ((rows : Int) * (cols : Int)) < 2 ^ 31 := by exact_mod_cast hn
  have hn0 : (0 : Int) ≤ (rows : Int) * (cols : Int) := by positivity
  have hif1 : ¬ ((rows : Int) * (cols : Int) < INT_MIN ∨ INT_MAX < (rows : Int) * (cols : Int)) := by
    unfold INT_MIN INT_MAX
    omega
  have hif2 : ¬ ((rows : Int) * (cols : Int) < 0) := by omega
  obtain ⟨_, hlen, hpts⟩ := @getCorner3f_rows α _ 50 cols
    (List.replicate (rows * cols) ⟨0, 0, 0⟩) rows
  refine ⟨(forLoop rows (fun r st => getCorner3fRow 50 (cols : Int) (r : Int) st)
    (List.replicate (rows * cols) ⟨0, 0, 0⟩, (0 : Int))).1, ?_, ?_, ?_⟩
  · simp only [getCorner3f, hif1, hif2, if_false, forInt, hL, Int.toNat_ofNat]
  · simpa using hlen
  · intro r c hrr hcc
    apply hpts r c hrr hcc
    simp only [List.length_replicate]
    calc r * cols + c < r * cols + cols := by omega
      _ = (r + 1) * cols := by ring
      _ ≤ rows * cols := Nat.mul_le_mul_right cols (by omega)

theorem floatUlp_succ (fuel v u : Nat) :
    floatUlp (fuel + 1) v u = if v < 2 ^ 24 * u then u else floatUlp fuel v (2 * u) := rfl

/-- An even number below `2^25` is a `float`. -/
theorem floatOfNat_exact (v : Nat) (h : v < 2 ^ 25) (heven : v % 2 = 0) : floatOfNat v = v := by
  unfold floatOfNat
  by_cases h24 : v < 2 ^ 24
  · have hu : floatUlp 104 v 1 = 1 := by
      rw [show (104 : Nat) = 103 + 1 from rfl, floatUlp_succ, if_pos (by simpa using h24)]
    simp [hu, Nat.mod_one]
  · have hu : floatUlp 104 v 1 = 2 := by
      rw [show (104 : Nat) = 103 + 1 from rfl, floatUlp_succ, if_neg (by simpa using h24),
        show (103 : Nat) = 102 + 1 from rfl, floatUlp_succ, if_pos (by norm_num; omega)]
    simp only [hu, heven]
    simp only [Nat.mul_zero, Nat.zero_lt_succ, if_true]
    omega

/-- The multiples `c * 50` with `c < 671089` are `float` values. -/
theorem floatOfInt_exact (c : Nat) (h : c < 671089) :
    floatOfInt ((c : Int) * 50) = (c : Int) * 50 := by
  have hnn : ¬ ((c : Int) * 50 < 0) := by omega
  have habs : ((c : Int) * 50).natAbs = c * 50 := by omega
  unfold floatOfInt
  rw [if_neg hnn, habs, floatOfNat_exact (c * 50) (by norm_num; omega) (by omega)]
  push_cast
  rfl

/-- C1 fails as stated: for 2 rows and 700002 columns the point at index 700001 has
`x = 35000048`, the `float` next to `700001 * 50 = 35000050`. -/
theorem getCorner3f_rounds_to_float :
    ∃ pts : List (Point3f Int),
      getCorner3f ⟨700002, 2⟩ = Outcome.ok pts
      ∧ pts[0 * 700002 + 700001]? = some ⟨35000048, 0, 0⟩
      ∧ (35000048 : Int) ≠ 700001 * 50 := by
  obtain ⟨pts, hok, _, hpts⟩ := @getCorner3f_spec Int _ 2 700002 (by norm_num)
  refine ⟨pts, hok, ?_, by decide⟩
  have h := hpts 0 700001 (by norm_num) (by norm_num)
  rw [h]
  decide

/-- C1, amended. For every pattern size with `2 <= rows, cols <= 671089` and a point
count `rows * cols` in the range of `int`, `getCorner3f` returns exactly `rows * cols`
points in row-major order: the point at index `r * cols + c` is `(c * 50, r * 50, 0)`
for every `r < rows` and `c < cols`. -/
theorem getCorner3f_row_major {α : Type} [Ring α] (rows cols : Nat) (_hr : 2 ≤ rows)
    (_hc : 2 ≤ cols) (hr2 : rows ≤ 671089) (hc2 : cols ≤ 671089)
    (hn : rows * cols < 2 ^ 31) :
    ∃ pts : List (Point3f α),
      getCorner3f ⟨(cols : Int), (rows : Int)⟩ = Outcome.ok pts
      ∧ pts.length = rows * cols
      ∧ ∀ r c, r < rows → c < cols →
          pts[r * cols + c]? = some ⟨(c : α) * 50, (r : α) * 50, 0⟩ := by
  obtain ⟨pts, hok, hlen, hpts⟩ := @getCorner3f_spec α _ rows cols hn
  refine ⟨pts, hok, hlen, ?_⟩
  intro r c hrr hcc
  rw [hpts r c hrr hcc, floatOfInt_exact c (by omega), floatOfInt_exact r (by omega)]
  push_cast
  rfl

/-- C1, amended, at the default pattern of the program, 7 columns and 5 rows. -/
theorem getCorner3f_row_major_witness :
    ∃ pts : List (Point3f Int),
      getCorner3f ⟨((7 : Nat) : Int), ((5 : Nat) : Int)⟩ = Outcome.ok pts
      ∧ pts.length = 5 * 7
      ∧ ∀ r c, r < 5 → c < 7 →
          pts[r * 7 + c]? = some ⟨(c : Int) * 50, (r : Int) * 50, 0⟩ :=
  getCorner3f_row_major 5 7 (by decide) (by decide) (by decide) (by decide) (by decide)

/-! ### The reprojection error -/

theorem forLoop_pair_sum {β : Type} [AddCommMonoid β] (a b : Nat → β) (n : Nat) (x y : β) :
    forLoop n (fun i (st : β × β) => (st.1 + a i, st.2 + b i)) (x, y)
      = (x + ((List.range n).map a).sum, y + ((List.range n).map b).sum) := by
  induction n with
  | zero => simp [forLoop_zero]
  | succ n ih =>
    rw [forLoop_succ, ih]
    simp [List.range_succ, add_assoc]

theorem sqDist_sum_nonneg (a b : List (Point2f ℝ)) : 0 ≤ (List.zipWith sqDist a b).sum := by
  induction a generalizing b with
  | nil => simp
  | cons p a ih =>
    cases b with
    | nil => simp
    | cons q b =>
      simp only [List.zipWith_cons_cons, List.sum_cons]
      have h1 : 0 ≤ sqDist p q := by
        unfold sqDist
        exact add_nonneg (mul_self_nonneg _) (mul_self_nonneg _)
      exact add_nonneg h1 (ih b)

theorem natCast_sum_map (l : List Nat) (f : Nat → Nat) :
    (l.map (fun i => ((f i : Nat) : ℝ))).sum = (((l.map f).sum : Nat) : ℝ) := by
  induction l with
  | nil => simp
  | cons i t ih => simp only [List.map_cons, List.sum_cons, Nat.cast_add, ih]

/-- C2. When in every view the observed and the projected points have the same length
and the total number of points is positive, `reprojectionError` over the reals is
`sqrt (S / N)`: `S` sums the squared pixel distances between observed and projected
points over all views, `N` is the total number of points. -/
theorem reprojectionError_eq_sqrt
    (projectPoints : List (Point3f ℝ) → Mat ℝ → Mat ℝ → Mat ℝ → Mat ℝ → List (Point2f ℝ))
    (object_points : List (List (Point3f ℝ))) (rvecs tvecs : List (Mat ℝ))
    (camera_matrix dist_coeffs : Mat ℝ) (image_points : List (List (Point2f ℝ)))
    (_hlen : ∀ i, i < object_points.length →
      (image_points.getD i []).length
        = (projectPoints (object_points.getD i []) (rvecs.getD i Mat.new)
            (tvecs.getD i Mat.new) camera_matrix dist_coeffs).length)
    (_hpos : 0 < ((List.range object_points.length).map
      (fun i => (object_points.getD i []).length)).sum) :
    reprojectionError Real.sqrt projectPoints object_points rvecs tvecs camera_matrix
        dist_coeffs image_points
      = Real.sqrt
          (((List.range object_points.length).map (fun i =>
              (List.zipWith sqDist (image_points.getD i [])
                (projectPoints (object_points.getD i []) (rvecs.getD i Mat.new)
                  (tvecs.getD i Mat.new) camera_matrix dist_coeffs)).sum)).sum
            / ((((List.range object_points.length).map
                (fun i => (object_points.getD i []).length)).sum : Nat) : ℝ)) := by
  unfold reprojectionError
  have hstep : reprojectionErrorStep Real.sqrt projectPoints object_points rvecs tvecs
      camera_matrix dist_coeffs image_points
      = fun i (st : ℝ × ℝ) =>
          (st.1 + (List.zipWith sqDist (image_points.getD i [])
                (projectPoints (object_points.getD i []) (rvecs.getD i Mat.new)
                  (tvecs.getD i Mat.new) camera_matrix dist_coeffs)).sum,
           st.2 + (((object_points.getD i []).length : Nat) : ℝ)) := by
    funext i st
    simp only [reprojectionErrorStep, normL2]
    rw [Real.mul_self_sqrt (sqDist_sum_nonneg _ _)]
    simp
  rw [hstep, forLoop_pair_sum]
  simp only [zero_add]
  congr 2
  exact natCast_sum_map _ _

/-- C2 on one view with one point, observed at `(3, 4)` and projected to `(0, 0)`:
the error is `sqrt (25 / 1)`. -/
theorem reprojectionError_eq_sqrt_witness :
    reprojectionError Real.sqrt (fun _ _ _ _ _ => [⟨0, 0⟩]) [[⟨0, 0, 0⟩]] [Mat.new] [Mat.new]
        Mat.new Mat.new [[⟨3, 4⟩]] = Real.sqrt 25 := by
  have h := reprojectionError_eq_sqrt (fun _ _ _ _ _ => [⟨0, 0⟩]) [[⟨0, 0, 0⟩]] [Mat.new]
    [Mat.new] Mat.new Mat.new [[⟨3, 4⟩]] (by intro i hi; simp at hi; subst hi; rfl) (by decide)
  rw [h]
  congr 1
  norm_num [List.range_succ, sqDist]

/-! ### The batch loops over the file list -/

theorem forLoop_congr {σ : Type} (n : Nat) (b1 b2 : Nat → σ → σ) (s : σ)
    (h : ∀ i, i < n → ∀ st, b1 i st = b2 i st) : forLoop n b1 s = forLoop n b2 s := by
  unfold forLoop
  apply List.foldl_ext
  intro st i hi
  exact h i (List.mem_range.mp hi) st

theorem forLoop_invariant {σ : Type} (P : σ → Prop) (n : Nat) (body : Nat → σ → σ) (s : σ)
    (h0 : P s) (hstep : ∀ i st, i < n → P st → P (body i st)) : P (forLoop n body s) := by
  induction n with
  | zero => simpa [forLoop_zero] using h0
  | succ n ih =>
    rw [forLoop_succ]
    exact hstep n _ (Nat.lt_succ_self n) (ih (fun i st hi hp => hstep i st (by omega) hp))

/-- An index loop that only reads `l[i]` is the fold over `l`. -/
theorem forLoop_getD {σ β : Type} (l : List β) (d : β) (g : β → σ → σ) (s : σ) :
    forLoop l.length (fun i st => g (l.getD i d) st) s = l.foldl (fun st x => g x st) s := by
  induction l using List.reverseRecOn with
  | nil => rfl
  | append_singleton l a ih =>
    rw [List.length_append, List.length_singleton, forLoop_succ, List.foldl_append]
    have h1 : forLoop l.length (fun i st => g ((l ++ [a]).getD i d) st) s
        = forLoop l.length (fun i st => g (l.getD i d) st) s := by
      apply forLoop_congr
      intro i hi st
      rw [List.getD_append _ _ _ _ hi]
    rw [h1, ih]
    simp

theorem foldl_append_calls {σ β : Type} (h : β → List σ) (l : List β) (init : List σ) :
    l.foldl (fun acc x => acc ++ h x) init = init ++ l.flatMap h := by
  induction l generalizing init with
  | nil => simp
  | cons x l ih => simp [ih, List.append_assoc]

/-- The loop of `globVector` copies the path list unchanged. -/
theorem globVector_eq {α : Type} (cv : OpenCV α) (pattern : List Char) :
    globVector cv pattern = cv.glob pattern := by
  unfold globVector
  simp only []
  rw [forLoop_getD (cv.glob pattern) [] (fun x files => files ++ [x]) [],
    foldl_append_calls (fun x => [x])]
  simp

/-- The calls of `undistortAll` are those of its files, one file after the other. -/
theorem undistortAll_eq {α : Type} (cv : OpenCV α) (in_mask out_dir : List Char)
    (camera_matrix dist_coeffs : Mat α) :
    undistortAll cv in_mask out_dir camera_matrix dist_coeffs
      = (globVector cv in_mask).flatMap (undistortCalls cv out_dir camera_matrix dist_coeffs) := by
  unfold undistortAll
  simp only []
  have h := forLoop_getD (globVector cv in_mask) []
    (fun file (events : List (Event α)) =>
      events ++ undistortCalls cv out_dir camera_matrix dist_coeffs file) []
  have h2 : undistortAllStep cv out_dir camera_matrix dist_coeffs (globVector cv in_mask)
      = fun i events => events ++ undistortCalls cv out_dir camera_matrix dist_coeffs
          ((globVector cv in_mask).getD i []) := by
    funext i events
    rfl
  rw [h2, h, foldl_append_calls]
  simp

/-! ### Derived file names -/

theorem rfind_eq_none (s : List Char) (c : Char) (h : c ∉ s) : rfind s c = none := by
  induction s with
  | nil => rfl
  | cons x xs ih =>
    have hx : ¬ x = c := fun e => h (by simp [e])
    have hxs : c ∉ xs := fun e => h (List.mem_cons_of_mem _ e)
    simp [rfind, ih hxs, hx]

theorem rfind_append_cons (d t : List Char) (c : Char) (h : c ∉ t) :
    rfind (d ++ c :: t) c = some d.length := by
  induction d with
  | nil => simp [rfind, rfind_eq_none t c h]
  | cons x d ih => simp [rfind, ih]

/-- The file name computed at lines 196-197, on a path `dir/name` whose `name` has no
slash. -/
theorem justFileName_path (dir name : List Char) (hname : '/' ∉ name)
    (hlen : (dir ++ '/' :: name).length < 2 ^ 64) :
    justFileName (dir ++ '/' :: name) = name := by
  have hlen2 : dir.length + 1 < 2 ^ 64 := by
    simp only [List.length_append, List.length_cons] at hlen
    omega
  unfold justFileName find_last_of substr
  rw [rfind_append_cons dir name '/' hname, Option.getD_some, Nat.mod_eq_of_lt hlen2]
  have hdrop : List.drop (dir.length + 1) (dir ++ '/' :: name) = name := by
    rw [List.drop_append]
    rfl
  rw [hdrop]
  apply List.take_of_length_le
  simp only [List.length_append, List.length_cons]
  omega

/-- The name computed at lines 199-201, on a path `dir/stem.ext`. -/
theorem writeFileName_path (out_dir dir stem ext suffix : List Char) (hstem : '/' ∉ stem)
    (hext : '/' ∉ ext) (hdot : '.' ∉ ext)
    (hlen : (dir ++ '/' :: (stem ++ '.' :: ext)).length < 2 ^ 64) :
    writeFileName out_dir (dir ++ '/' :: (stem ++ '.' :: ext)) suffix
      = out_dir ++ stem ++ suffix := by
  have hname : '/' ∉ stem ++ '.' :: ext := by
    simp only [List.mem_append, List.mem_cons, not_or]
    exact ⟨hstem, by decide, hext⟩
  unfold writeFileName
  simp only []
  rw [justFileName_path dir _ hname hlen]
  unfold find_last_of substr
  rw [rfind_append_cons stem ext '.' hdot]
  simp

/-! ### Detection and calibration (`getCorners`, `getPoints`) -/

/-- C3. On two files of which the first shows no chessboard and the second passes,
`getPoints` hands `calibrate` two entries per vector although one image passed, and
the entries of the failed image are empty. -/
theorem getPoints_keeps_failed_entries :
    (getPointsLoop sample "in/*.jpg".toList "out/".toList ⟨2, 2⟩).map GetPointsState.passed
        = Outcome.ok 1
    ∧ (getPointsLoop sample "in/*.jpg".toList "out/".toList ⟨2, 2⟩).map
          GetPointsState.object_points
        = Outcome.ok [[], [⟨0, 0, 0⟩, ⟨50, 0, 0⟩, ⟨0, 50, 0⟩, ⟨50, 50, 0⟩]]
    ∧ (getPointsLoop sample "in/*.jpg".toList "out/".toList ⟨2, 2⟩).map
          GetPointsState.image_points
        = Outcome.ok [[], [⟨0, 0⟩, ⟨1, 0⟩, ⟨0, 1⟩, ⟨1, 1⟩]]
    ∧ (getPointsLoop sample "in/*.jpg".toList "out/".toList ⟨2, 2⟩).map GetPointsState.images
        = Outcome.ok [Mat.new, ⟨1, 1, [2]⟩] := by
  decide

/-- C4. On an image for which the search reports failure and leaves one corner behind,
`getCorners` returns that corner, and `getPoints` counts the image as passed. -/
theorem getCorners_returns_corners_of_failed_search :
    (sample.findChessboardCorners (sample.imread "in/c.jpg".toList IMREAD_GRAYSCALE) ⟨7, 5⟩).1
        = false
    ∧ getCorners sample (sample.imread "in/c.jpg".toList IMREAD_GRAYSCALE) ⟨7, 5⟩ ⟨5, 5⟩ ⟨-1, -1⟩
        = [⟨7, 7⟩]
    ∧ (getPointsLoop sample "in/c*".toList "out/".toList ⟨7, 5⟩).map GetPointsState.passed
        = Outcome.ok 1 := by
  decide

/-- C6 fails as stated: a stored 3 x 4 matrix is loaded and returned as it is. -/
theorem loadMat_returns_3x4 :
    loadMat sampleFiles "camera-matrix.xml".toList
      = ⟨3, 4, [1, 0, 0, 0, 0, 1, 0, 0, 0, 0, 1, 0]⟩ := by
  decide

/-- C6, amended. `loadMat` returns the matrix that the document holds under the field
`mat`, whatever its shape. -/
theorem loadMat_returns_stored {α : Type} (fs : Files α) (file_name : List Char)
    (doc : Document α) (m : Mat α) (hfile : fs file_name = some doc)
    (hfield : doc.lookup "mat".toList = some m) : loadMat fs file_name = m := by
  unfold loadMat
  rw [hfile]
  simp only []
  rw [hfield]

/-- C6, amended, on the stored 3 x 4 matrix. -/
theorem loadMat_returns_stored_witness :
    loadMat sampleFiles "camera-matrix.xml".toList
      = (⟨3, 4, [1, 0, 0, 0, 0, 1, 0, 0, 0, 0, 1, 0]⟩ : Mat Int) :=
  loadMat_returns_stored sampleFiles "camera-matrix.xml".toList
    [("mat".toList, ⟨3, 4, [1, 0, 0, 0, 0, 1, 0, 0, 0, 0, 1, 0]⟩)] _ (by decide) (by decide)

theorem loadMat_saveMat {α : Type} (fmt : α → α) (fs : Files α) (m : Mat α) (f : List Char) :
    loadMat (saveMat fmt fs m f) f = { m with data := m.data.map fmt } := by
  simp [loadMat, saveMat, List.lookup]

theorem loadMat_saveMat_ne {α : Type} (fmt : α → α) (fs : Files α) (m : Mat α)
    (f g : List Char) (h : g ≠ f) : loadMat (saveMat fmt fs m g) f = loadMat fs f := by
  have h2 : ¬ f = g := fun e => h e.symm
  simp [loadMat, saveMat, h2]

/-- C7. When the text written for a number reads back within `tol` of it, `saveMat`
followed by `loadMat` of the same file name returns a matrix of the same shape whose
elements are within `tol` of the saved ones, and a later `saveMat` to another file
name does not change what `loadMat` returns. -/
theorem saveMat_loadMat_roundtrip {α : Type} [LinearOrderedField α] (fmt : α → α) (tol : α)
    (hfmt : ∀ x, |fmt x - x| ≤ tol) (fs : Files α) (m : Mat α) (f : List Char) :
    (loadMat (saveMat fmt fs m f) f).rows = m.rows
    ∧ (loadMat (saveMat fmt fs m f) f).cols = m.cols
    ∧ (loadMat (saveMat fmt fs m f) f).data.length = m.data.length
    ∧ (∀ (i : Nat) (x : α), m.data[i]? = some x →
        ∃ y, (loadMat (saveMat fmt fs m f) f).data[i]? = some y ∧ |y - x| ≤ tol)
    ∧ (∀ g m2, g ≠ f →
        loadMat (saveMat fmt (saveMat fmt fs m f) m2 g) f = loadMat (saveMat fmt fs m f) f) := by
  rw [loadMat_saveMat]
  refine ⟨rfl, rfl, by simp, ?_, ?_⟩
  · intro i x hx
    refine ⟨fmt x, ?_, hfmt x⟩
    simp [hx]
  · intro g m2 hg
    rw [loadMat_saveMat_ne _ _ _ _ _ hg, loadMat_saveMat]

/-- C7 on a 1 x 2 matrix of rationals whose text reads back exactly. -/
theorem saveMat_loadMat_roundtrip_witness :
    (loadMat (saveMat id (fun _ => none) (⟨1, 2, [1, 2]⟩ : Mat ℚ) "dist-coefs.xml".toList)
        "dist-coefs.xml".toList).rows = 1
    ∧ (loadMat (saveMat id (fun _ => none) (⟨1, 2, [1, 2]⟩ : Mat ℚ) "dist-coefs.xml".toList)
        "dist-coefs.xml".toList).cols = 2
    ∧ (loadMat (saveMat id (fun _ => none) (⟨1, 2, [1, 2]⟩ : Mat ℚ) "dist-coefs.xml".toList)
        "dist-coefs.xml".toList).data.length = 2
    ∧ (∀ (i : Nat) (x : ℚ), ([1, 2] : List ℚ)[i]? = some x →
        ∃ y, (loadMat (saveMat id (fun _ => none) (⟨1, 2, [1, 2]⟩ : Mat ℚ)
          "dist-coefs.xml".toList) "dist-coefs.xml".toList).data[i]? = some y ∧ |y - x| ≤ 0)
    ∧ (∀ g m2, g ≠ "dist-coefs.xml".toList →
        loadMat (saveMat id (saveMat id (fun _ => none) (⟨1, 2, [1, 2]⟩ : Mat ℚ)
          "dist-coefs.xml".toList) m2 g) "dist-coefs.xml".toList
        = loadMat (saveMat id (fun _ => none) (⟨1, 2, [1, 2]⟩ : Mat ℚ) "dist-coefs.xml".toList)
          "dist-coefs.xml".toList) :=
  saveMat_loadMat_roundtrip id 0 (by intro x; simp) (fun _ => none) ⟨1, 2, [1, 2]⟩
    "dist-coefs.xml".toList

/-! ### Batch undistortion (`undistortAll`) -/

/-- C8 fails as stated: for the input `in/a.jpg` and the output directory `out/` the one
file written is `out/a-cpp-undistort.bmp`, not `out/a-undistort.jpg`. -/
theorem undistortAll_writes_bmp_name :
    (undistortAll sample "in/a*".toList "out/".toList Mat.new Mat.new).filterMap
        (fun e => (Event.written e).map Prod.fst)
      = ["out/a-cpp-undistort.bmp".toList]
    ∧ "out/a-cpp-undistort.bmp".toList ≠ "out/a-undistort.jpg".toList := by
  decide

/-- C8, amended. For every matched path `dir/stem.ext`, where `stem` has no slash and
`ext` has neither slash nor dot, `undistortAll` writes the undistorted image to
`out_dir` followed by `stem-cpp-undistort.bmp`. -/
theorem undistortAll_write_name {α : Type} (cv : OpenCV α) (in_mask out_dir : List Char)
    (camera_matrix dist_coeffs : Mat α) (dir stem ext : List Char) (hstem : '/' ∉ stem)
    (hext : '/' ∉ ext) (hdot : '.' ∉ ext)
    (hlen : (dir ++ '/' :: (stem ++ '.' :: ext)).length < 2 ^ 64)
    (hmem : dir ++ '/' :: (stem ++ '.' :: ext) ∈ cv.glob in_mask) :
    Event.imwrite (out_dir ++ stem ++ "-cpp-undistort.bmp".toList)
        (undistort cv (cv.imread (dir ++ '/' :: (stem ++ '.' :: ext)) IMREAD_UNCHANGED)
          camera_matrix dist_coeffs)
      ∈ undistortAll cv in_mask out_dir camera_matrix dist_coeffs := by
  rw [undistortAll_eq, globVector_eq, List.mem_flatMap]
  refine ⟨_, hmem, ?_⟩
  unfold undistortCalls
  rw [writeFileName_path out_dir dir stem ext _ hstem hext hdot hlen]
  simp

/-- C8, amended, on the sample file `in/a.jpg`. -/
theorem undistortAll_write_name_witness :
    Event.imwrite ("out/".toList ++ "a".toList ++ "-cpp-undistort.bmp".toList)
        (undistort sample (sample.imread ("in".toList ++ '/' :: ("a".toList ++ '.' :: "jpg".toList))
          IMREAD_UNCHANGED) Mat.new Mat.new)
      ∈ undistortAll sample "in/a*".toList "out/".toList Mat.new Mat.new :=
  undistortAll_write_name sample "in/a*".toList "out/".toList Mat.new Mat.new "in".toList
    "a".toList "jpg".toList (by decide) (by decide) (by decide) (by decide) (by decide)

/-- C9. When the file mask matches no file, `undistortAll` makes no call at all (no
read, no undistort, no write); in general its writes are one per matched file, in the
order of the file list. -/
theorem undistortAll_one_write_per_file {α : Type} (cv : OpenCV α) (in_mask out_dir : List Char)
    (camera_matrix dist_coeffs : Mat α) :
    (cv.glob in_mask = [] → undistortAll cv in_mask out_dir camera_matrix dist_coeffs = [])
    ∧ (undistortAll cv in_mask out_dir camera_matrix dist_coeffs).filterMap Event.written
        = (cv.glob in_mask).map (fun file =>
            (writeFileName out_dir file "-cpp-undistort.bmp".toList,
              undistort cv (cv.imread file IMREAD_UNCHANGED) camera_matrix dist_coeffs)) := by
  rw [undistortAll_eq, globVector_eq]
  refine ⟨fun h => by rw [h]; rfl, ?_⟩
  induction cv.glob in_mask with
  | nil => rfl
  | cons file files ih =>
    rw [List.flatMap_cons, List.filterMap_append, ih]
    rfl

/-- C9 on a mask that matches no file of the sample environment. -/
theorem undistortAll_one_write_per_file_witness :
    sample.glob "none*".toList = []
    ∧ undistortAll sample "none*".toList "out/".toList Mat.new Mat.new = [] :=
  ⟨by decide,
    (undistortAll_one_write_per_file sample "none*".toList "out/".toList Mat.new Mat.new).1
      (by decide)⟩

/-- C10 fails as stated: the sample file `in/d.jpg` cannot be read as an image, and
`undistortAll` still passes the empty image to `undistort` and writes an output. -/
theorem undistortAll_writes_unreadable_file :
    (sample.imread "in/d.jpg".toList IMREAD_UNCHANGED).empty = true
    ∧ undistortAll sample "in/d*".toList "out/".toList Mat.new Mat.new
      = [Event.imread "in/d.jpg".toList IMREAD_UNCHANGED, Event.undistort Mat.new,
         Event.imwrite "out/d-cpp-undistort.bmp".toList Mat.new] := by
  decide

/-- C10, amended. For every file of the list, readable or not, `undistortAll` reads it,
passes what `imread` returned to `undistort` and writes the result. -/
theorem undistortAll_processes_every_file {α : Type} (cv : OpenCV α)
    (in_mask out_dir : List Char) (camera_matrix dist_coeffs : Mat α) (file : List Char)
    (hmem : file ∈ cv.glob in_mask) :
    Event.imread file IMREAD_UNCHANGED
        ∈ undistortAll cv in_mask out_dir camera_matrix dist_coeffs
    ∧ Event.undistort (cv.imread file IMREAD_UNCHANGED)
        ∈ undistortAll cv in_mask out_dir camera_matrix dist_coeffs
    ∧ Event.imwrite (writeFileName out_dir file "-cpp-undistort.bmp".toList)
          (undistort cv (cv.imread file IMREAD_UNCHANGED) camera_matrix dist_coeffs)
        ∈ undistortAll cv in_mask out_dir camera_matrix dist_coeffs := by
  rw [undistortAll_eq, globVector_eq]
  simp only [List.mem_flatMap]
  refine ⟨⟨file, hmem, ?_⟩, ⟨file, hmem, ?_⟩, ⟨file, hmem, ?_⟩⟩ <;> simp [undistortCalls]

/-- C10, amended, on the unreadable sample file `in/d.jpg`. -/
theorem undistortAll_processes_every_file_witness :
    Event.imread "in/d.jpg".toList IMREAD_UNCHANGED
        ∈ undistortAll sample "in/d*".toList "out/".toList Mat.new Mat.new
    ∧ Event.undistort (sample.imread "in/d.jpg".toList IMREAD_UNCHANGED)
        ∈ undistortAll sample "in/d*".toList "out/".toList Mat.new Mat.new
    ∧ Event.imwrite (writeFileName "out/".toList "in/d.jpg".toList "-cpp-undistort.bmp".toList)
          (undistort sample (sample.imread "in/d.jpg".toList IMREAD_UNCHANGED) Mat.new Mat.new)
        ∈ undistortAll sample "in/d*".toList "out/".toList Mat.new Mat.new :=
  undistortAll_processes_every_file sample "in/d*".toList "out/".toList Mat.new Mat.new
    "in/d.jpg".toList (by decide)

end CameraCalibration

/-! ### The C library: numerals, `strtol`, `atoi` -/

namespace Libc

theorem whileLoop_of_not_cond {σ : Type} (fuel : Nat) (cond : σ → Bool) (body : σ → σ) (s : σ)
    (h : cond s = false) : whileLoop fuel cond body s = s := by
  cases fuel with
  | zero => rfl
  | succ n => simp [whileLoop, h]

theorem isDigit_not_special (c : Char) (h : c.isDigit = true) :
    isspace c = false ∧ c ≠ '-' ∧ c ≠ '+' ∧ c ≠ ',' := by
  have hr : 48 ≤ c.toNat ∧ c.toNat ≤ 57 := by
    simp only [Char.isDigit, Bool.and_eq_true, decide_eq_true_eq] at h
    exact ⟨h.1, h.2⟩
  refine ⟨?_, ?_, ?_, ?_⟩
  · simp only [isspace, Bool.or_eq_false_iff, beq_eq_false_iff_ne, ne_eq]
    refine ⟨⟨⟨⟨⟨?_, ?_⟩, ?_⟩, ?_⟩, ?_⟩, ?_⟩ <;> (rintro rfl; revert hr; decide)
  · rintro rfl; revert hr; decide
  · rintro rfl; revert hr; decide
  · rintro rfl; revert hr; decide

theorem digitChar_spec (d : Nat) (h : d < 10) :
    (Nat.digitChar d).isDigit = true ∧ (Nat.digitChar d).toNat - '0'.toNat = d := by
  interval_cases d <;> decide

theorem digitsValue_append (xs : List Char) (c : Char) :
    digitsValue (xs ++ [c]) = digitsValue xs * 10 + (c.toNat - '0'.toNat) := by
  simp [digitsValue, List.foldl_append]

theorem digitsValue_digits (L : List Nat) (h : ∀ d ∈ L, d < 10) :
    digitsValue (L.reverse.map Nat.digitChar) = Nat.ofDigits 10 L := by
  induction L with
  | nil => rfl
  | cons d L ih =>
    rw [List.reverse_cons, List.map_append, List.map_singleton, digitsValue_append,
      ih (fun x hx => h x (List.mem_cons_of_mem _ hx)), Nat.ofDigits_cons,
      (digitChar_spec d (h d (List.mem_cons_self _ _))).2]
    ring

/-- The numeral of a natural number is a non-empty run of digits with that value. -/
theorem natText_spec (n : Nat) :
    natText n ≠ [] ∧ (∀ c ∈ natText n, c.isDigit = true) ∧ digitsValue (natText n) = n := by
  unfold natText
  by_cases h0 : n = 0
  · subst h0
    simp only [if_true]
    decide
  · simp only [h0, if_false]
    have hlt : ∀ d ∈ Nat.digits 10 n, d < 10 := fun d hd => Nat.digits_lt_base (by decide) hd
    refine ⟨?_, ?_, ?_⟩
    · simpa using Nat.digits_ne_nil_iff_ne_zero.mpr h0
    · intro c hc
      simp only [List.mem_map, List.mem_reverse] at hc
      obtain ⟨d, hd, rfl⟩ := hc
      exact (digitChar_spec d (hlt d hd)).1
    · rw [digitsValue_digits _ hlt, Nat.ofDigits_digits]

end Libc

namespace Libc

theorem takeWhile_all {p : Char → Bool} (l : List Char) (h : ∀ c ∈ l, p c = true) :
    l.takeWhile p = l := by
  induction l with
  | nil => rfl
  | cons x xs ih =>
    rw [List.takeWhile_cons, h x (List.mem_cons_self _ _)]
    simp only [if_true]
    rw [ih (fun c hc => h c (List.mem_cons_of_mem _ hc))]

theorem strtol_digits (ds : List Char) (hne : ds ≠ []) (hd : ∀ c ∈ ds, c.isDigit = true) :
    strtol ds = (min (max (digitsValue ds : Int) LONG_MIN) LONG_MAX, ds.length) := by
  obtain ⟨c, cs, rfl⟩ := List.exists_cons_of_ne_nil hne
  obtain ⟨hsp, hm, hp, _⟩ := isDigit_not_special c (hd c (List.mem_cons_self _ _))
  have htw : List.takeWhile Char.isDigit (c :: cs) = c :: cs := takeWhile_all _ hd
  have h1 : List.takeWhile isspace (c :: cs) = [] := by simp [List.takeWhile_cons, hsp]
  have h2 : List.dropWhile isspace (c :: cs) = c :: cs := by simp [List.dropWhile_cons, hsp]
  unfold strtol
  simp only [h1, h2, List.head?_cons]
  have hneg : (some c == some '-') = false := by simpa using hm
  have hpos : (some c == some '+') = false := by simpa using hp
  simp [hneg, hpos, htw]

theorem strtol_minus_digits (ds : List Char) (hne : ds ≠ [])
    (hd : ∀ c ∈ ds, c.isDigit = true) :
    strtol ('-' :: ds)
      = (min (max (-(digitsValue ds : Int)) LONG_MIN) LONG_MAX, ds.length + 1) := by
  have htw : List.takeWhile Char.isDigit ds = ds := takeWhile_all _ hd
  have hnil : ds.isEmpty = false := by
    cases ds with
    | nil => exact absurd rfl hne
    | cons c cs => rfl
  have h1 : List.takeWhile isspace ('-' :: ds) = [] := by
    rw [List.takeWhile_cons]; rfl
  have h2 : List.dropWhile isspace ('-' :: ds) = '-' :: ds := by
    rw [List.dropWhile_cons]; rfl
  unfold strtol
  simp only [h1, h2, List.head?_cons]
  simp [htw, hnil]
  omega

/-- The call `atoi` on the numeral of an integer in the range of `long` gives it back. -/
theorem atoi_intText (z : Int) (hlo : LONG_MIN ≤ z) (hhi : z ≤ LONG_MAX) :
    atoi (intText z) = z := by
  obtain ⟨hne, hd, hv⟩ := natText_spec z.natAbs
  unfold atoi intText
  by_cases hz : z < 0
  · simp only [hz, if_true]
    rw [strtol_minus_digits _ hne hd, hv]
    simp only
    have : -((z.natAbs : Nat) : Int) = z := by omega
    rw [this, max_eq_left hlo, min_eq_left hhi]
  · simp only [hz, if_false]
    rw [strtol_digits _ hne hd, hv]
    simp only
    have : ((z.natAbs : Nat) : Int) = z := by omega
    rw [this, max_eq_left hlo, min_eq_left hhi]

theorem intText_spec (z : Int) : intText z ≠ [] ∧ ',' ∉ intText z := by
  obtain ⟨hne, hd, _⟩ := natText_spec z.natAbs
  have hc : ',' ∉ natText z.natAbs := fun h => (isDigit_not_special _ (hd _ h)).2.2.2 rfl
  unfold intText
  by_cases hz : z < 0
  · simp only [hz, if_true]
    refine ⟨by simp, ?_⟩
    simp only [List.mem_cons, not_or]
    exact ⟨by decide, hc⟩
  · simp only [hz, if_false]
    exact ⟨hne, hc⟩

end Libc

/-! ### The pattern-size argument of the calibration program -/

namespace CameraCalibration

theorem takeWhile_ne_append (tc tr : List Char) (d : Char) (h : d ∉ tc) :
    List.takeWhile (fun c => c != d) (tc ++ d :: tr) = tc
    ∧ List.dropWhile (fun c => c != d) (tc ++ d :: tr) = d :: tr := by
  induction tc with
  | nil => simp [List.takeWhile_cons, List.dropWhile_cons]
  | cons x xs ih =>
    have hx : x ≠ d := fun e => h (by simp [e])
    have hxs : d ∉ xs := fun e => h (List.mem_cons_of_mem _ e)
    obtain ⟨i1, i2⟩ := ih hxs
    simp [List.takeWhile_cons, List.dropWhile_cons, hx, i1, i2]

theorem takeWhile_ne_all (tr : List Char) (d : Char) (h : d ∉ tr) :
    List.takeWhile (fun c => c != d) tr = tr ∧ List.dropWhile (fun c => c != d) tr = [] := by
  induction tr with
  | nil => simp
  | cons x xs ih =>
    have hx : x ≠ d := fun e => h (by simp [e])
    have hxs : d ∉ xs := fun e => h (List.mem_cons_of_mem _ e)
    obtain ⟨i1, i2⟩ := ih hxs
    simp [List.takeWhile_cons, List.dropWhile_cons, hx, i1, i2]

/-- A field that is followed by the delimiter: the stream stays good. -/
theorem getline_field (tc tr : List Char) (h : ',' ∉ tc) :
    getline { buf := tc ++ ',' :: tr, eofbit := false, failbit := false } ','
      = ({ buf := tr, eofbit := false, failbit := false }, tc) := by
  obtain ⟨h1, h2⟩ := takeWhile_ne_append tc tr ',' h
  simp [getline, StringStream.good, h1, h2]

/-- The last field, which ends with the buffer: `eofbit` is set. -/
theorem getline_last (tr : List Char) (h : ',' ∉ tr) :
    getline { buf := tr, eofbit := false, failbit := false } ','
      = ({ buf := [], eofbit := true, failbit := tr.isEmpty }, tr) := by
  obtain ⟨h1, h2⟩ := takeWhile_ne_all tr ',' h
  simp [getline, StringStream.good, h1, h2]

/-- The loop of `main` on a text with exactly one comma: two fields, two writes. -/
theorem parsePattern_two_fields (tc tr : List Char) (hc : ',' ∉ tc) (hr : ',' ∉ tr) :
    parsePattern (tc ++ ',' :: tr)
      = { ss := { buf := [], eofbit := true, failbit := tr.isEmpty }
          result := [Libc.atoi tc, Libc.atoi tr]
          i := 2
          writes := [0, 1] } := by
  unfold parsePattern
  have hfuel : (tc ++ ',' :: tr).length + 1 = (tc.length + tr.length) + 2 := by
    simp only [List.length_append, List.length_cons]
    omega
  rw [hfuel]
  simp only [Libc.whileLoop, StringStream.good, Bool.not_false, Bool.and_self, if_true]
  simp only [parseStep, getline_field tc tr hc, StringStream.good, Bool.not_false,
    Bool.and_self, if_true, getline_last tr hr]
  rw [Libc.whileLoop_of_not_cond]
  · rfl
  · simp [StringStream.good]

theorem getline_progress (ss : StringStream) (hgood : ss.good = true) :
    (getline ss ',').1.good = false ∨ (getline ss ',').1.buf.length < ss.buf.length := by
  unfold getline
  simp only [hgood, if_true]
  split
  · left
    simp [StringStream.good]
  · rename_i x rest heq
    right
    have hle := (List.dropWhile_suffix (fun c => c != ',') (l := ss.buf)).length_le
    rw [heq] at hle
    simp only [List.length_cons] at hle
    simp only
    omega

theorem whileLoop_parse_ends (fuel : Nat) (st : ParseState) (h : st.ss.buf.length < fuel) :
    (Libc.whileLoop fuel (fun st => st.ss.good) parseStep st).ss.good = false := by
  induction fuel generalizing st with
  | zero => omega
  | succ n ih =>
    unfold Libc.whileLoop
    by_cases hg : st.ss.good = true
    · simp only [hg, if_true]
      rcases getline_progress st.ss hg with h1 | h1
      · rw [Libc.whileLoop_of_not_cond]
        · exact h1
        · exact h1
      · apply ih
        simp only [parseStep]
        omega
    · simp only [hg]
      simpa using hg

/-- The loop of `main` ends by its condition, whatever the text: the iterations allowed
to `parsePattern` are never used up. -/
theorem parsePattern_ends (arg : List Char) : (parsePattern arg).ss.good = false := by
  unfold parsePattern
  apply whileLoop_parse_ends
  simp

end CameraCalibration

namespace CameraCalibration

/-- C11 fails as stated: with the three arguments `m o 0,0` the pattern size passed on
is `(0, 0)`, which is not a pair of positive integers. -/
theorem mainArgs_pattern_not_positive :
    (mainArgs ["p".toList, "m".toList, "o".toList, "0,0".toList]).2.2 = ⟨0, 0⟩
    ∧ ¬ (0 < (mainArgs ["p".toList, "m".toList, "o".toList, "0,0".toList]).2.2.width
        ∧ 0 < (mainArgs ["p".toList, "m".toList, "o".toList, "0,0".toList]).2.2.height) := by
  decide

/-- C11, amended. The pattern size passed on is `(7, 5)` whenever the argument count is
not four, and it is `(c, r)` when three arguments are given and the third is the text
`c,r` of two decimal integers in the range of `int`; the loop then ends by its
condition, and the pair is positive only when `c` and `r` are. -/
theorem mainArgs_pattern_size (argv : List (List Char)) :
    (argv.length ≠ 4 → (mainArgs argv).2.2 = ⟨7, 5⟩)
    ∧ ∀ c r : Int, -(2 ^ 31) ≤ c → c < 2 ^ 31 → -(2 ^ 31) ≤ r → r < 2 ^ 31 →
        argv.length = 4 → argv.getD 3 [] = Libc.intText c ++ ',' :: Libc.intText r →
        (mainArgs argv).2.2 = ⟨c, r⟩
        ∧ (parsePattern (argv.getD 3 [])).ss.good = false
        ∧ ((0 < (mainArgs argv).2.2.width ∧ 0 < (mainArgs argv).2.2.height)
            ↔ (0 < c ∧ 0 < r)) := by
  refine ⟨fun h => by simp [mainArgs, h], ?_⟩
  intro c r hc1 hc2 hr1 hr2 hlen htext
  have hsize : (mainArgs argv).2.2 = ⟨c, r⟩ := by
    unfold mainArgs
    simp only [hlen, if_true, htext]
    rw [parsePattern_two_fields _ _ (Libc.intText_spec c).2 (Libc.intText_spec r).2,
      Libc.atoi_intText c (by unfold Libc.LONG_MIN; omega) (by unfold Libc.LONG_MAX; omega),
      Libc.atoi_intText r (by unfold Libc.LONG_MIN; omega) (by unfold Libc.LONG_MAX; omega)]
    rfl
  refine ⟨hsize, parsePattern_ends _, ?_⟩
  rw [hsize]

/-- C11, amended, with no argument and with the arguments `in/*.jpg out/ 9,6`. -/
theorem mainArgs_pattern_size_witness :
    (mainArgs ["p".toList]).2.2 = ⟨7, 5⟩
    ∧ (mainArgs ["p".toList, "in/*.jpg".toList, "out/".toList, "9,6".toList]).2.2 = ⟨9, 6⟩ :=
  ⟨(mainArgs_pattern_size ["p".toList]).1 (by decide),
    ((mainArgs_pattern_size ["p".toList, "in/*.jpg".toList, "out/".toList, "9,6".toList]).2
      9 6 (by decide) (by decide) (by decide) (by decide) (by decide)
      (by simp [Libc.intText, Libc.natText]; decide)).1⟩

/-- C13. On the texts `1,2,3` and `7,5,` the loop of `main` runs three times and the
third write goes to index 2 of the two-element vector `result`. -/
theorem parsePattern_writes_third_field :
    (parsePattern "1,2,3".toList).writes = [0, 1, 2]
    ∧ (parsePattern "7,5,".toList).writes = [0, 1, 2]
    ∧ (parsePattern "1,2,3".toList).result.length = 2 := by
  decide

end CameraCalibration

/-! ### The capture argument of `CaptureUI.cpp` -/

namespace CaptureUI

/-- C12. The argument `10.0.0.1/stream`, of which `strtol` converts the leading `10`
only, is opened as camera index 10, and the empty argument is opened as index 0. -/
theorem mainOpen_index_for_leading_digits :
    mainOpen ["CaptureUI".toList, "10.0.0.1/stream".toList] = OpenCall.index 10
    ∧ mainOpen ["CaptureUI".toList, "".toList] = OpenCall.index 0 := by
  decide

end CaptureUI

/-! ### The frames-per-second figure of `Canny.cpp`, `Writer.cpp`, `PeopleDetect.cpp` -/

namespace Canny

/-- C14. For a run that starts and ends within the same second the divisor of the
frames-per-second figure is zero in each of the three programs: nothing guards the
division. -/
theorem fps_division_by_zero_within_a_second :
    Canny.fps 10 ⟨100, 0⟩ ⟨100, 900000⟩ = none
    ∧ Writer.fps 10 ⟨100, 0⟩ ⟨100, 900000⟩ = none
    ∧ PeopleDetect.fps 10 ⟨100, 0⟩ ⟨100, 900000⟩ = none
    ∧ ((⟨100, 900000⟩ : Libc.Timeval).tv_sec - (⟨100, 0⟩ : Libc.Timeval).tv_sec = 0) := by
  decide

end Canny
